import Mathlib

/-!
Verification of the fofa-go client's response-parsing logic
(`QueryAsJSON` / `QueryAsArray` in `fofa/fofa.go`).

The HTTP transport and the `jsonparser` library are external
collaborators; the reply envelope is modelled as the outcome of the
three `jsonparser` lookups the code performs (`errmsg` as a string,
`results` with its JSON type and raw byte content, `size` as an
integer).  Bytes and Go strings are modelled as `List Char`; Go panics
(nil-pointer dereference when calling `Error()` on a nil error, slice
bounds and index out of range) are modelled as an explicit `GoPanic`
outcome.
-/

namespace Fofa

/-- The JSON value stored in an envelope field, as seen by the
`jsonparser` lookups: only the distinctions the code consumes are kept
(the string payload, the integer payload, the raw byte content of an
array/object, and the JSON type). -/
inductive JVal where
  | jstr (s : List Char)
  | jnum (n : Int)
  | jarr (raw : List Char)
  | jobj (raw : List Char)
  | jbool (b : Bool)
  | jnull
deriving DecidableEq

/-- Raw byte content `jsonparser.Get` reports for a value. Only the
`jarr` case is ever consumed by the code (the others are cut off by the
array-type check before use). -/
def rawOf : JVal → List Char
  | .jstr s => s
  | .jnum n => (toString n).data
  | .jarr raw => raw
  | .jobj raw => raw
  | .jbool b => if b then ['t','r','u','e'] else ['f','a','l','s','e']
  | .jnull => ['n','u','l','l']

/-- `jsonparser` dataType test used by the code: `dataType == Array`. -/
def isArr : JVal → Bool
  | .jarr _ => true
  | _ => false

/-- A reply envelope: the three top-level fields the code looks up.
`none` means the key is absent from the JSON object. -/
structure Reply where
  errmsgField : Option JVal
  resultsField : Option JVal
  sizeField : Option JVal
deriving DecidableEq

/-- `jsonparser.GetString(buf, key)`: succeeds exactly when the key is
present with a string value. -/
def getStringF : Option JVal → Except Unit (List Char)
  | some (.jstr s) => Except.ok s
  | _ => Except.error ()

/-- `jsonparser.GetInt(buf, key)`: succeeds exactly when the key is
present with a numeric value. -/
def getIntF : Option JVal → Except Unit Int
  | some (.jnum n) => Except.ok n
  | _ => Except.error ()

/-- Go `result` struct: one parsed record (all fields Go strings,
zero value is the empty string). -/
structure result where
  Domain : List Char
  Host : List Char
  IP : List Char
  Port : List Char
  Title : List Char
  Country : List Char
  City : List Char
deriving DecidableEq

/-- The zero value of the Go `result` struct. -/
def emptyResult : result := ⟨[], [], [], [], [], [], []⟩

/-- A Go runtime panic reachable in `QueryAsArray`. -/
inductive GoPanic where
  | nilDeref
  | sliceOOB
  | indexOOB
deriving DecidableEq

/-- The errors `QueryAsArray` can return. `remote msg` is
`errors.New(errmsg)`; `keyPathNotFound` is the `jsonparser` error
returned when `results` is absent; the other two are the package-level
error values. -/
inductive GoError where
  | remote (msg : List Char)
  | keyPathNotFound
  | wrongFormat
  | noData
deriving DecidableEq

/-- Parse step of `QueryAsJSON` (lines 115–122): after reading the body
`buf`, `errmsg, err := jsonparser.GetString(buf, "errmsg")`; when that
lookup succeeds `err` is replaced by `errors.New(errmsg)`, otherwise
`err` is reset to nil; the body is returned in both cases. -/
def queryAsJSON (buf : Reply) : Reply × Option GoError :=
  match getStringF buf.errmsgField with
  | Except.ok errmsg => (buf, some (GoError.remote errmsg))
  | Except.error _ => (buf, none)

/-- Bool test that `sep` is a prefix of `s` (Go `bytes.Index` probe). -/
def leadsWith : List Char → List Char → Bool
  | [], _ => true
  | _ :: _, [] => false
  | a :: as, b :: bs => a = b && leadsWith as bs

/-- Index of the first occurrence of `sep` inside `s` (Go
`bytes.Index`), `none` when `sep` does not occur. -/
def subPos (sep : List Char) : List Char → Option Nat
  | [] => none
  | c :: rest =>
    if leadsWith sep (c :: rest) then some 0
    else (subPos sep rest).map (fun n => n + 1)

/-- Fuel-indexed worker for `splitSub`; fuel only bounds the recursion
depth and is always sufficient at the call site. -/
def splitSubF (sep : List Char) : Nat → List Char → List (List Char)
  | 0, s => [s]
  | fuel + 1, s =>
    match subPos sep s with
    | none => [s]
    | some i => s.take i :: splitSubF sep fuel (s.drop (i + sep.length))

/-- Go `bytes.Split(s, sep)` for a non-empty separator: split around
each leftmost, non-overlapping occurrence of `sep`. -/
def splitSub (sep s : List Char) : List (List Char) :=
  splitSubF sep (s.length + 1) s

/-- The literal row separator `],[` from line 187. -/
def rowSep : List Char := [']', ',', '[']

/-- Go slice expression `s[lo:hi]` on a byte slice: `none` models the
"slice bounds out of range" panic (`lo` and `hi` are Go ints, so a
negative bound is out of range). -/
def goSlice (s : List Char) (lo hi : Int) : Option (List Char) :=
  if 0 ≤ lo ∧ lo ≤ hi ∧ hi ≤ (s.length : Int) then
    some ((s.take hi.toNat).drop lo.toNat)
  else none

/-- Go `strings.Trim(field, " ")`: drop leading and trailing spaces. -/
def trimSpaces (s : List Char) : List Char :=
  ((s.dropWhile (fun c => c = ' ')).reverse.dropWhile (fun c => c = ' ')).reverse

/-- One Go map assignment `m[k] = v`, on the functional model of
`map[string]int`. -/
def insertMap (m : List Char → Option Nat) (k : List Char) (v : Nat) :
    List Char → Option Nat :=
  fun name => if name = k then some v else m name

/-- The loop `for i, field := range fields { mapFields[Trim(field," ")] = i }`
(lines 144–147), with `i` starting at `i0`. -/
def buildMap : Nat → List (List Char) → (List Char → Option Nat) →
    List Char → Option Nat
  | _, [], m => m
  | i, f :: rest, m => buildMap (i + 1) rest (insertMap m (trimSpaces f) i)

/-- Field-to-index map built from a caller-supplied field list. -/
def mapFieldsCustom (fields : List (List Char)) : List Char → Option Nat :=
  buildMap 0 fields (fun _ => none)

def domainKey : List Char := ['d','o','m','a','i','n']
def hostKey : List Char := ['h','o','s','t']
def ipKey : List Char := ['i','p']
def portKey : List Char := ['p','o','r','t']
def titleKey : List Char := ['t','i','t','l','e']
def countryKey : List Char := ['c','o','u','n','t','r','y']
def cityKey : List Char := ['c','i','t','y']

/-- The default field-to-index map (lines 149–155). -/
def mapFieldsDefault : List Char → Option Nat :=
  fun name =>
    if name = domainKey then some 0
    else if name = hostKey then some 1
    else if name = ipKey then some 2
    else if name = portKey then some 3
    else if name = titleKey then some 4
    else if name = countryKey then some 5
    else if name = cityKey then some 6
    else none

/-- `mapFields` as a lookup function: built from `args[1]` when the
caller supplied a field list (lines 143–147), the default otherwise. -/
def mapFieldsOf (args1 : Option (List Char)) : List Char → Option Nat :=
  match args1 with
  | some s => mapFieldsCustom (splitSub [','] s)
  | none => mapFieldsDefault

/-- `len(mapFields)`: the number of distinct keys of the Go map. -/
def mapFieldsSize (args1 : Option (List Char)) : Nat :=
  match args1 with
  | some s => (((splitSub [','] s).map trimSpaces).dedup).length
  | none => 7

/-- The column-stripping slice `cell[1 : len(cell)-1]` (lines 196–214);
errors model the slice-bounds panic when the cell is shorter than two
bytes. -/
def cellValue (cell : List Char) : Except GoPanic (List Char) :=
  match goSlice cell 1 ((cell.length : Int) - 1) with
  | none => Except.error GoPanic.sliceOOB
  | some s => Except.ok s

/-- `tmp[a]` followed by the stripping slice: index-out-of-range panic
when `a` is not a valid index of the split row. -/
def colValue (tmp : List (List Char)) (a : Nat) : Except GoPanic (List Char) :=
  match tmp.get? a with
  | none => Except.error GoPanic.indexOOB
  | some cell => cellValue cell

/-- One statement `if a, ok := mapFields[name]; ok { set record tmp[a][1:len-1] }`. -/
def assignField (mf : List Char → Option Nat) (tmp : List (List Char))
    (name : List Char) (set : result → List Char → result) (r : result) :
    Except GoPanic result :=
  match mf name with
  | none => Except.ok r
  | some a =>
    match colValue tmp a with
    | Except.error p => Except.error p
    | Except.ok s => Except.ok (set r s)

/-- The loop body for one row `v` (lines 193–215): split on commas, then
the seven field assignments in source order. -/
def parseRow (mf : List Char → Option Nat) (v : List Char) :
    Except GoPanic result :=
  let tmp := splitSub [','] v
  match assignField mf tmp domainKey (fun r s => { r with Domain := s }) emptyResult with
  | Except.error p => Except.error p
  | Except.ok r =>
  match assignField mf tmp hostKey (fun r s => { r with Host := s }) r with
  | Except.error p => Except.error p
  | Except.ok r =>
  match assignField mf tmp ipKey (fun r s => { r with IP := s }) r with
  | Except.error p => Except.error p
  | Except.ok r =>
  match assignField mf tmp portKey (fun r s => { r with Port := s }) r with
  | Except.error p => Except.error p
  | Except.ok r =>
  match assignField mf tmp titleKey (fun r s => { r with Title := s }) r with
  | Except.error p => Except.error p
  | Except.ok r =>
  match assignField mf tmp countryKey (fun r s => { r with Country := s }) r with
  | Except.error p => Except.error p
  | Except.ok r =>
  match assignField mf tmp cityKey (fun r s => { r with City := s }) r with
  | Except.error p => Except.error p
  | Except.ok r => Except.ok r

/-- The row loop `for i, v := range resultArray` (line 192): records are
produced in row order; a panic in any row aborts the whole call. -/
def parseRows (mf : List Char → Option Nat) :
    List (List Char) → Except GoPanic (List result)
  | [] => Except.ok []
  | v :: rest =>
    match parseRow mf v with
    | Except.error p => Except.error p
    | Except.ok r =>
      match parseRows mf rest with
      | Except.error p => Except.error p
      | Except.ok rs => Except.ok (r :: rs)

/-- Lines 186–190: strip the outer bytes of the raw `results` content
and split into rows — two outer bytes and separator `],[` when more
than one field is mapped, one outer byte and separator `,` otherwise. -/
def splitResults (msize : Nat) (results : List Char) :
    Except GoPanic (List (List Char)) :=
  if msize > 1 then
    match goSlice results 2 ((results.length : Int) - 2) with
    | none => Except.error GoPanic.sliceOOB
    | some mid => Except.ok (splitSub rowSep mid)
  else
    match goSlice results 1 ((results.length : Int) - 1) with
    | none => Except.error GoPanic.sliceOOB
    | some mid => Except.ok (splitSub [','] mid)

/-- `QueryAsArray` (lines 129–217), starting from the reply body
returned by `QueryAsJSON` (transport errors aside).  `args1` is
`args[1]`, the optional caller-supplied field list.  The outer `Except`
is a Go runtime panic; the inner one is the returned `error`. -/
def queryAsArray (buf : Reply) (args1 : Option (List Char)) :
    Except GoPanic (Except GoError (List result)) :=
  match (queryAsJSON buf).2 with
  | some e => Except.ok (Except.error e)
  | none =>
    let mf := mapFieldsOf args1
    let msize := mapFieldsSize args1
    -- lines 159–165: re-probe errmsg on the body
    match getStringF buf.errmsgField with
    | Except.ok errmsg => Except.ok (Except.error (GoError.remote errmsg))
    | Except.error _ =>
      -- lines 167–176: results extraction and type switch
      match buf.resultsField with
      | none => Except.ok (Except.error GoError.keyPathNotFound)
      | some v =>
        if isArr v then
          -- lines 177–185: size checks
          match getIntF buf.sizeField with
          | Except.error _ => Except.ok (Except.error GoError.wrongFormat)
          | Except.ok size =>
            if size < 1 then Except.ok (Except.error GoError.noData)
            else
              match splitResults msize (rawOf v) with
              | Except.error p => Except.error p
              | Except.ok resultArray =>
                match parseRows mf resultArray with
                | Except.error p => Except.error p
                | Except.ok queryArray => Except.ok (Except.ok queryArray)
        else
          -- dataType != Array with err == nil: the log call evaluates
          -- err.Error() on a nil error and panics
          Except.error GoPanic.nilDeref

instance {ε α : Type} [DecidableEq ε] [DecidableEq α] : DecidableEq (Except ε α) := fun a b =>
  match a, b with
  | Except.ok x, Except.ok y =>
    if h : x = y then isTrue (by rw [h]) else isFalse (fun hh => by cases hh; exact h rfl)
  | Except.error x, Except.error y =>
    if h : x = y then isTrue (by rw [h]) else isFalse (fun hh => by cases hh; exact h rfl)
  | Except.ok _, Except.error _ => isFalse (fun hh => by cases hh)
  | Except.error _, Except.ok _ => isFalse (fun hh => by cases hh)

/-! ## Reply construction used to state the claims

A well-formed reply's `results` value is the serialization of a list of
rows of quoted string cells: `[["c1","c2"],["d1","d2"]]`.  For a
single-field query the service sends a flat array `["c1","c2"]`. -/

/-- A quoted cell: `"c"`. -/
def quoteCell (c : List Char) : List Char := '"' :: c ++ ['"']

/-- Join parts with a separator (no trailing separator). -/
def joinSep (sep : List Char) : List (List Char) → List Char
  | [] => []
  | [p] => p
  | p :: ps => p ++ sep ++ joinSep sep ps

/-- The inside of one serialized row: `"c1","c2",...`. -/
def encodeRowBody (row : List (List Char)) : List Char :=
  joinSep [','] (row.map quoteCell)

/-- One serialized row: `["c1","c2",...]`. -/
def encodeRow (row : List (List Char)) : List Char :=
  '[' :: encodeRowBody row ++ [']']

/-- The raw `results` value of a multi-field reply. -/
def encodeResults (rows : List (List (List Char))) : List Char :=
  '[' :: joinSep [','] (rows.map encodeRow) ++ [']']

/-- The raw `results` value of a single-field reply (flat array). -/
def encodeFlat (cells : List (List Char)) : List Char :=
  '[' :: joinSep [','] (cells.map quoteCell) ++ [']']

/-- A cell that the naive byte-splitting parses back intact: it holds
none of the three delimiter characters the splitter keys on. -/
def goodCell (c : List Char) : Prop := ',' ∉ c ∧ '[' ∉ c ∧ ']' ∉ c

instance (c : List Char) : Decidable (goodCell c) := by
  unfold goodCell; infer_instance

/-- The spec's worked example row (§8):
`["example.com","1.2.3.4:80","1.2.3.4","80","Example","US","NYC"]`. -/
def exampleRow : List (List Char) :=
  ["example.com".data, "1.2.3.4:80".data, "1.2.3.4".data, "80".data,
   "Example".data, "US".data, "NYC".data]

/-- The spec's worked example reply
`{"size":1,"results":[["example.com","1.2.3.4:80",...]]}`. -/
def exampleReply : Reply :=
  ⟨none, some (JVal.jarr (encodeResults [exampleRow])), some (JVal.jnum 1)⟩

/-- The property C2 says triggers the error path: a non-empty error
message in the reply. -/
def carriesNonEmptyErrmsg (r : Reply) : Prop :=
  ∃ s, s ≠ [] ∧ r.errmsgField = some (JVal.jstr s)

/-- The reply used to refute C2 as stated: an empty-string `errmsg`
beside otherwise perfectly good data. -/
def c2Reply : Reply :=
  ⟨some (JVal.jstr []), some (JVal.jarr "[[\"a\"]]".data), some (JVal.jnum 1)⟩

/-- The per-row value extraction both split paths share: split the row
on commas, index column `a`, strip the outer characters. -/
def listColValues (a : Nat) : List (List Char) → Except GoPanic (List (List Char))
  | [] => Except.ok []
  | v :: rest =>
    match colValue (splitSub [','] v) a with
    | Except.error p => Except.error p
    | Except.ok s =>
      match listColValues a rest with
      | Except.error p => Except.error p
      | Except.ok ss => Except.ok (s :: ss)

/-- The stripped per-row values column `a` receives from the split path
selected by the mapping size `msize` on raw results content `raw`. -/
def pathValues (msize a : Nat) (raw : List Char) : Except GoPanic (List (List Char)) :=
  match splitResults msize raw with
  | Except.error p => Except.error p
  | Except.ok arr => listColValues a arr

/-! ## Lemmas about the byte-splitting machinery -/

theorem leadsWith_self_append (sep t : List Char) : leadsWith sep (sep ++ t) = true := by
  induction sep with
  | nil => rfl
  | cons a as ih => simp [leadsWith, ih]

theorem leadsWith_head {ch : Char} {sp s : List Char} {c : Char}
    (h : leadsWith (ch :: sp) (c :: s) = true) : ch = c := by
  simp [leadsWith] at h
  exact h.1

theorem subPos_append_notin {ch : Char} (sp : List Char) :
    ∀ (s t : List Char), ch ∉ s →
      subPos (ch :: sp) (s ++ t) = (subPos (ch :: sp) t).map (fun n => n + s.length) := by
  intro s
  induction s with
  | nil =>
    intro t _
    cases h : subPos (ch :: sp) t <;> simp [h]
  | cons c rest ih =>
    intro t hnot
    have hcne : ch ≠ c := fun he => hnot (he ▸ List.mem_cons_self c rest)
    have hrest : ch ∉ rest := fun hm => hnot (List.mem_cons_of_mem c hm)
    have hlw : leadsWith (ch :: sp) (c :: (rest ++ t)) = false := by
      cases hl : leadsWith (ch :: sp) (c :: (rest ++ t)) with
      | false => rfl
      | true => exact absurd (leadsWith_head hl) hcne
    have step : subPos (ch :: sp) ((c :: rest) ++ t) =
        (subPos (ch :: sp) (rest ++ t)).map (fun n => n + 1) := by
      simp only [List.cons_append, subPos, List.append_eq]
      rw [hlw]
      simp
    rw [step, ih t hrest]
    cases h : subPos (ch :: sp) t with
    | none => simp
    | some n => simp; omega

theorem subPos_notin {ch : Char} (sp : List Char) (s : List Char) (h : ch ∉ s) :
    subPos (ch :: sp) s = none := by
  have := subPos_append_notin sp s [] h
  simp at this
  simpa using this

theorem subPos_self_append {ch : Char} (sp t : List Char) :
    subPos (ch :: sp) ((ch :: sp) ++ t) = some 0 := by
  have h : leadsWith (ch :: sp) (ch :: (sp ++ t)) = true := by
    have := leadsWith_self_append (ch :: sp) t
    simpa using this
  simp [subPos, h]

theorem splitSubF_notin {ch : Char} (sp : List Char) (fuel : Nat) (s : List Char)
    (hf : 0 < fuel) (h : ch ∉ s) : splitSubF (ch :: sp) fuel s = [s] := by
  cases fuel with
  | zero => omega
  | succ f => simp [splitSubF, subPos_notin sp s h]

theorem splitSubF_joinSep {ch : Char} (sp : List Char) :
    ∀ (parts : List (List Char)) (fuel : Nat),
      (joinSep (ch :: sp) parts).length < fuel → parts ≠ [] →
      (∀ p ∈ parts, ch ∉ p) →
      splitSubF (ch :: sp) fuel (joinSep (ch :: sp) parts) = parts := by
  intro parts
  induction parts with
  | nil => intro fuel _ hne _; exact absurd rfl hne
  | cons p ps ih =>
    intro fuel hfuel _ hnot
    cases ps with
    | nil =>
      have hp : ch ∉ p := hnot p (List.mem_cons_self p [])
      exact splitSubF_notin sp fuel (joinSep (ch :: sp) [p]) (by omega) (by simpa [joinSep] using hp)
    | cons q rest =>
      have hp : ch ∉ p := hnot p (List.mem_cons_self p _)
      have hjoin : joinSep (ch :: sp) (p :: q :: rest) =
          p ++ ((ch :: sp) ++ joinSep (ch :: sp) (q :: rest)) := by
        simp [joinSep]
      cases fuel with
      | zero => omega
      | succ f =>
        rw [hjoin]
        have hpos : subPos (ch :: sp) (p ++ ((ch :: sp) ++ joinSep (ch :: sp) (q :: rest))) =
            some p.length := by
          rw [subPos_append_notin sp p _ hp, subPos_self_append]
          simp
        simp only [splitSubF, hpos]
        have htake : (p ++ ((ch :: sp) ++ joinSep (ch :: sp) (q :: rest))).take p.length = p := by
          simp [List.take_left]
        have hdrop : (p ++ ((ch :: sp) ++ joinSep (ch :: sp) (q :: rest))).drop
            (p.length + (ch :: sp).length) = joinSep (ch :: sp) (q :: rest) := by
          rw [show p ++ ((ch :: sp) ++ joinSep (ch :: sp) (q :: rest)) =
              (p ++ (ch :: sp)) ++ joinSep (ch :: sp) (q :: rest) by simp,
            show p.length + (ch :: sp).length = (p ++ (ch :: sp)).length by simp]
          exact List.drop_left _ _
        rw [htake, hdrop]
        have hrec : splitSubF (ch :: sp) f (joinSep (ch :: sp) (q :: rest)) = q :: rest := by
          apply ih f _ (by simp) (fun x hx => hnot x (List.mem_cons_of_mem p hx))
          rw [hjoin] at hfuel
          simp only [List.length_append, List.length_cons] at hfuel ⊢
          omega
        rw [hrec]

theorem splitSub_joinSep {ch : Char} (sp : List Char) (parts : List (List Char))
    (hne : parts ≠ []) (hnot : ∀ p ∈ parts, ch ∉ p) :
    splitSub (ch :: sp) (joinSep (ch :: sp) parts) = parts :=
  splitSubF_joinSep sp parts _ (Nat.lt_succ_self _) hne hnot

theorem splitSub_notin {ch : Char} (sp : List Char) (s : List Char) (h : ch ∉ s) :
    splitSub (ch :: sp) s = [s] :=
  splitSubF_notin sp _ s (Nat.succ_pos _) h

/-! ## Lemmas about the serialized reply shape -/

theorem mem_joinSep {x : Char} {sep : List Char} :
    ∀ {ps : List (List Char)}, x ∈ joinSep sep ps → (∃ p ∈ ps, x ∈ p) ∨ x ∈ sep := by
  intro ps
  induction ps with
  | nil => intro h; simp [joinSep] at h
  | cons p qs ih =>
    cases qs with
    | nil =>
      intro h
      exact Or.inl ⟨p, by simp, by simpa [joinSep] using h⟩
    | cons q rs =>
      intro h
      have h' : x ∈ p ++ (sep ++ joinSep sep (q :: rs)) := by simpa [joinSep] using h
      rcases List.mem_append.mp h' with hp | h2
      · exact Or.inl ⟨p, by simp, hp⟩
      · rcases List.mem_append.mp h2 with hs | hj
        · exact Or.inr hs
        · rcases ih hj with ⟨r, hr, hxr⟩ | hs
          · exact Or.inl ⟨r, List.mem_cons_of_mem p hr, hxr⟩
          · exact Or.inr hs

theorem notin_quoteCell {x : Char} (hx : x ≠ '"') {c : List Char} (h : x ∉ c) :
    x ∉ quoteCell c := by
  intro hmem
  rcases by simpa [quoteCell] using hmem with h1 | h1 | h1
  · exact hx h1
  · exact h h1
  · exact hx h1

theorem rbracket_notin_body {row : List (List Char)} (hg : ∀ c ∈ row, goodCell c) :
    ']' ∉ encodeRowBody row := by
  intro hmem
  rcases mem_joinSep hmem with ⟨p, hp, hxp⟩ | hsep
  · rcases List.mem_map.mp hp with ⟨c, hc, rfl⟩
    exact notin_quoteCell (by decide) (hg c hc).2.2 hxp
  · simp at hsep

theorem goSlice_toNat (s : List Char) (lo hi : Int) (lo' hi' : Nat)
    (hlo : lo = (lo' : Int)) (hhi : hi = (hi' : Int))
    (hle : lo' ≤ hi') (hlen : hi' ≤ s.length) :
    goSlice s lo hi = some ((s.take hi').drop lo') := by
  subst hlo hhi
  unfold goSlice
  rw [if_pos]
  · simp
  · refine ⟨by positivity, by exact_mod_cast hle, by exact_mod_cast hlen⟩

theorem cellValue_quote (c : List Char) : cellValue (quoteCell c) = Except.ok c := by
  have h1 : (((quoteCell c).length : Int) - 1) = ((c.length + 1 : Nat) : Int) := by
    simp [quoteCell]
  have h2 : c.length + 1 ≤ (quoteCell c).length := by simp [quoteCell]
  have hslice : goSlice (quoteCell c) 1 (((quoteCell c).length : Int) - 1) = some c := by
    rw [goSlice_toNat (quoteCell c) 1 _ 1 (c.length + 1) rfl h1 (by omega) h2]
    congr 1
    show ((('"' :: (c ++ ['"'])).take (c.length + 1)).drop 1) = c
    rw [List.take_succ_cons, List.take_left]
    rfl
  unfold cellValue
  rw [hslice]

theorem colValue_map_quote (l : List (List Char)) (a : Nat) (ha : a < l.length) :
    colValue (l.map quoteCell) a = Except.ok (l.getD a []) := by
  unfold colValue
  rw [List.get?_map, List.get?_eq_get ha]
  simp only [Option.map_some']
  rw [cellValue_quote]
  congr 1
  rw [List.getD_eq_getElem?_getD, List.getElem?_eq_getElem ha]
  simp [List.get_eq_getElem]

theorem splitResults_multi (msize : Nat) (hm : 1 < msize) (mid : List Char) :
    splitResults msize ('[' :: '[' :: (mid ++ [']', ']'])) =
      Except.ok (splitSub rowSep mid) := by
  have hlen : ('[' :: '[' :: (mid ++ [']', ']'])).length = mid.length + 4 := by simp
  have hslice : goSlice ('[' :: '[' :: (mid ++ [']', ']'])) 2
      ((('[' :: '[' :: (mid ++ [']', ']'])).length : Int) - 2) = some mid := by
    rw [goSlice_toNat _ 2 _ 2 (mid.length + 2) rfl (by rw [hlen]; push_cast; ring)
      (by omega) (by rw [hlen]; omega)]
    congr 1
    rw [show mid.length + 2 = (mid.length + 1) + 1 from rfl,
      List.take_succ_cons, List.take_succ_cons, List.take_left]
    rfl
  unfold splitResults
  rw [if_pos hm, hslice]

theorem splitResults_single (msize : Nat) (hm : ¬ 1 < msize) (mid : List Char) :
    splitResults msize ('[' :: (mid ++ [']'])) =
      Except.ok (splitSub [','] mid) := by
  have hlen : ('[' :: (mid ++ [']'])).length = mid.length + 2 := by simp
  have hslice : goSlice ('[' :: (mid ++ [']'])) 1
      ((('[' :: (mid ++ [']'])).length : Int) - 1) = some mid := by
    rw [goSlice_toNat _ 1 _ 1 (mid.length + 1) rfl (by rw [hlen]; push_cast; ring)
      (by omega) (by rw [hlen]; omega)]
    congr 1
    rw [List.take_succ_cons, List.take_left]
    rfl
  unfold splitResults
  rw [if_neg hm, hslice]

theorem joinSep_encodeRow (rows : List (List (List Char))) (hne : rows ≠ []) :
    joinSep [','] (rows.map encodeRow) =
      '[' :: (joinSep rowSep (rows.map encodeRowBody) ++ [']']) := by
  induction rows with
  | nil => exact absurd rfl hne
  | cons r rest ih =>
    cases rest with
    | nil => simp [joinSep, encodeRow]
    | cons q rs =>
      have ih' := ih (by simp)
      simp only [List.map_cons, joinSep, encodeRow] at ih' ⊢
      rw [ih']
      simp [rowSep]

theorem encodeResults_eq (rows : List (List (List Char))) (hne : rows ≠ []) :
    encodeResults rows =
      '[' :: '[' :: ((joinSep rowSep (rows.map encodeRowBody)) ++ [']', ']']) := by
  unfold encodeResults
  rw [joinSep_encodeRow rows hne]
  simp

theorem parseRows_map {α : Type} (mf : List Char → Option Nat)
    (g : α → result) (f : α → List Char) :
    ∀ l : List α, (∀ x ∈ l, parseRow mf (f x) = Except.ok (g x)) →
      parseRows mf (l.map f) = Except.ok (l.map g) := by
  intro l
  induction l with
  | nil => intro _; simp [parseRows]
  | cons x rest ih =>
    intro h
    have hx := h x (by simp)
    have hrest := ih (fun y hy => h y (List.mem_cons_of_mem x hy))
    simp only [List.map_cons, parseRows, hx, hrest]

theorem length7 {α : Type} {l : List α} (h : l.length = 7) :
    ∃ a b c d e f g, l = [a, b, c, d, e, f, g] := by
  rcases l with _ | ⟨a, l⟩
  · simp only [List.length_nil] at h; omega
  rcases l with _ | ⟨b, l⟩
  · simp only [List.length_cons, List.length_nil] at h; omega
  rcases l with _ | ⟨c, l⟩
  · simp only [List.length_cons, List.length_nil] at h; omega
  rcases l with _ | ⟨d, l⟩
  · simp only [List.length_cons, List.length_nil] at h; omega
  rcases l with _ | ⟨e, l⟩
  · simp only [List.length_cons, List.length_nil] at h; omega
  rcases l with _ | ⟨f, l⟩
  · simp only [List.length_cons, List.length_nil] at h; omega
  rcases l with _ | ⟨g, l⟩
  · simp only [List.length_cons, List.length_nil] at h; omega
  have hl : l.length = 0 := by
    simp only [List.length_cons] at h
    omega
  rw [List.length_eq_zero] at hl
  subst hl
  exact ⟨a, b, c, d, e, f, g, rfl⟩

/-- Parsing one serialized row of seven delimiter-free cells with the
default field mapping yields the record whose attributes are the seven
cells in order. -/
theorem parseRow_default (row : List (List Char)) (h7 : row.length = 7)
    (hg : ∀ c ∈ row, goodCell c) :
    parseRow mapFieldsDefault (encodeRowBody row) =
      Except.ok ⟨row.getD 0 [], row.getD 1 [], row.getD 2 [], row.getD 3 [],
                 row.getD 4 [], row.getD 5 [], row.getD 6 []⟩ := by
  have hne : row ≠ [] := by intro h; rw [h] at h7; simp at h7
  have htmp : splitSub [','] (encodeRowBody row) = row.map quoteCell := by
    unfold encodeRowBody
    exact splitSub_joinSep [] (row.map quoteCell)
      (by simpa using hne)
      (fun p hp => by
        rcases List.mem_map.mp hp with ⟨c, hc, rfl⟩
        exact notin_quoteCell (by decide) (hg c hc).1)
  have m0 : mapFieldsDefault domainKey = some 0 := by decide
  have m1 : mapFieldsDefault hostKey = some 1 := by decide
  have m2 : mapFieldsDefault ipKey = some 2 := by decide
  have m3 : mapFieldsDefault portKey = some 3 := by decide
  have m4 : mapFieldsDefault titleKey = some 4 := by decide
  have m5 : mapFieldsDefault countryKey = some 5 := by decide
  have m6 : mapFieldsDefault cityKey = some 6 := by decide
  have k0 : colValue (row.map quoteCell) 0 = Except.ok (row.getD 0 []) :=
    colValue_map_quote _ _ (by omega)
  have k1 : colValue (row.map quoteCell) 1 = Except.ok (row.getD 1 []) :=
    colValue_map_quote _ _ (by omega)
  have k2 : colValue (row.map quoteCell) 2 = Except.ok (row.getD 2 []) :=
    colValue_map_quote _ _ (by omega)
  have k3 : colValue (row.map quoteCell) 3 = Except.ok (row.getD 3 []) :=
    colValue_map_quote _ _ (by omega)
  have k4 : colValue (row.map quoteCell) 4 = Except.ok (row.getD 4 []) :=
    colValue_map_quote _ _ (by omega)
  have k5 : colValue (row.map quoteCell) 5 = Except.ok (row.getD 5 []) :=
    colValue_map_quote _ _ (by omega)
  have k6 : colValue (row.map quoteCell) 6 = Except.ok (row.getD 6 []) :=
    colValue_map_quote _ _ (by omega)
  simp only [parseRow, htmp, assignField, m0, m1, m2, m3, m4, m5, m6,
    k0, k1, k2, k3, k4, k5, k6, emptyResult]

/-! ## The claims -/

/-- Claim C1: for every well-formed reply whose `results` array holds
`N ≥ 1` rows of seven quoted delimiter-free string columns, with no
error message and a positive `size`, `QueryAsArray` with the default
fields returns exactly `N` records, and the `i`-th record is parsed
from the `i`-th row (its seven attributes are that row's columns in
the default order domain, host, ip, port, title, country, city). -/
theorem spec_c1 (rows : List (List (List Char))) (n : Int)
    (hne : rows ≠ []) (h7 : ∀ row ∈ rows, row.length = 7)
    (hg : ∀ row ∈ rows, ∀ c ∈ row, goodCell c) (hn : 1 ≤ n) :
    queryAsArray ⟨none, some (JVal.jarr (encodeResults rows)), some (JVal.jnum n)⟩ none =
      Except.ok (Except.ok (rows.map (fun row =>
        (⟨row.getD 0 [], row.getD 1 [], row.getD 2 [], row.getD 3 [],
          row.getD 4 [], row.getD 5 [], row.getD 6 []⟩ : result)))) := by
  have hrows : splitSub rowSep (joinSep rowSep (rows.map encodeRowBody)) =
      rows.map encodeRowBody := by
    have hr : rowSep = ']' :: [',', '['] := rfl
    rw [hr]
    exact splitSub_joinSep [',', '['] (rows.map encodeRowBody)
      (by simpa using hne)
      (fun p hp => by
        rcases List.mem_map.mp hp with ⟨row, hrow, rfl⟩
        exact rbracket_notin_body (hg row hrow))
  have hsplit : splitResults 7 (encodeResults rows) =
      Except.ok (rows.map encodeRowBody) := by
    rw [encodeResults_eq rows hne, splitResults_multi 7 (by omega), hrows]
  have hparse : parseRows mapFieldsDefault (rows.map encodeRowBody) =
      Except.ok (rows.map (fun row =>
        (⟨row.getD 0 [], row.getD 1 [], row.getD 2 [], row.getD 3 [],
          row.getD 4 [], row.getD 5 [], row.getD 6 []⟩ : result))) :=
    parseRows_map mapFieldsDefault _ _ rows
      (fun row hrow => parseRow_default row (h7 row hrow) (hg row hrow))
  simp only [queryAsArray, queryAsJSON, getStringF, mapFieldsOf, mapFieldsSize,
    isArr, getIntF, rawOf, if_neg (show ¬ n < 1 by omega), hsplit, hparse,
    if_true]

/-- Witness for C1: the spec's worked example reply yields exactly the
example record. -/
theorem spec_c1_witness :
    ([exampleRow] ≠ ([] : List (List (List Char)))) ∧
    queryAsArray exampleReply none = Except.ok (Except.ok
      [⟨"example.com".data, "1.2.3.4:80".data, "1.2.3.4".data, "80".data,
        "Example".data, "US".data, "NYC".data⟩]) :=
  ⟨by decide,
   spec_c1 [exampleRow] 1 (by decide) (by decide) (by decide) (by decide)⟩

/-- Claim C10: whenever the response body carries a string-valued
`errmsg` field, `QueryAsJSON` returns the full body together with a
non-nil error built from that message (an empty `errmsg` included: the
error is then the empty-message error, still non-nil). -/
theorem spec_c10 (r : Reply) (s : List Char)
    (h : r.errmsgField = some (JVal.jstr s)) :
    queryAsJSON r = (r, some (GoError.remote s)) := by
  unfold queryAsJSON
  rw [h]
  rfl

/-- Witness for C10 at the empty error message: the body is returned
and the error is the (non-nil) empty-message error. -/
theorem spec_c10_witness :
    (⟨some (JVal.jstr []), none, none⟩ : Reply).errmsgField = some (JVal.jstr []) ∧
    queryAsJSON ⟨some (JVal.jstr []), none, none⟩ =
      (⟨some (JVal.jstr []), none, none⟩, some (GoError.remote [])) :=
  ⟨rfl, spec_c10 _ [] rfl⟩

/-- If `QueryAsArray` returns a remote error, the reply's `errmsg`
field is that string: no other branch produces `GoError.remote`. -/
theorem remote_out_means_errmsg (r : Reply) (args1 : Option (List Char)) (s : List Char)
    (h : queryAsArray r args1 = Except.ok (Except.error (GoError.remote s))) :
    r.errmsgField = some (JVal.jstr s) := by
  simp only [queryAsArray, queryAsJSON] at h
  cases hg : getStringF r.errmsgField with
  | ok t =>
    rw [hg] at h
    simp at h
    have ht : r.errmsgField = some (JVal.jstr t) := by
      cases hf : r.errmsgField with
      | none => rw [hf] at hg; exact absurd hg (by simp [getStringF])
      | some v =>
        cases v <;> rw [hf] at hg <;>
          first
            | (simp only [getStringF, Except.ok.injEq] at hg; rw [hg])
            | exact absurd hg (by simp [getStringF])
    rw [ht, h]
  | error e =>
    rw [hg] at h
    cases hres : r.resultsField with
    | none => rw [hres] at h; simp at h
    | some v =>
      rw [hres] at h
      cases v with
      | jstr t => simp [isArr] at h
      | jnum m => simp [isArr] at h
      | jobj raw => simp [isArr] at h
      | jbool b => simp [isArr] at h
      | jnull => simp [isArr] at h
      | jarr raw =>
        cases hsz : getIntF r.sizeField with
        | error u => rw [hsz] at h; simp [isArr] at h
        | ok n =>
          rw [hsz] at h
          simp only [isArr, if_true] at h
          by_cases hn : n < 1
          · rw [if_pos hn] at h; simp [isArr] at h
          · rw [if_neg hn] at h
            cases hsp : splitResults (mapFieldsSize args1) (rawOf (JVal.jarr raw)) with
            | error p => rw [hsp] at h; simp [isArr] at h
            | ok arr =>
              rw [hsp] at h
              cases hpr : parseRows (mapFieldsOf args1) arr with
              | error p => simp [hpr] at h
              | ok qa => simp [hpr] at h

/-- Counterexample to C2 as stated: a reply whose `errmsg` field is the
empty string carries no non-empty error message, yet `QueryAsArray`
still returns an (empty-message) error and no records, so the error
path is not taken "exactly when the reply carries a non-empty error
message". -/
theorem spec_c2_counterexample :
    queryAsArray c2Reply none = Except.ok (Except.error (GoError.remote [])) ∧
    ¬ carriesNonEmptyErrmsg c2Reply := by
  refine ⟨by decide, ?_⟩
  rintro ⟨s, hs, hf⟩
  have : s = [] := by
    have h2 : some (JVal.jstr []) = some (JVal.jstr s) := hf
    simpa using h2.symm
  exact hs this

/-- Claim C2 (amended): `QueryAsArray` returns an error carrying the
reply's error message exactly when the reply carries a *string-valued*
`errmsg` field — even the empty string — and in that case returns no
records; replies without a string `errmsg` field never produce a
remote error (omitting the error fields is treated as success at this
step). -/
theorem spec_c2_amended (r : Reply) (args1 : Option (List Char)) :
    (∀ s, r.errmsgField = some (JVal.jstr s) →
      queryAsArray r args1 = Except.ok (Except.error (GoError.remote s))) ∧
    ((∀ s, r.errmsgField ≠ some (JVal.jstr s)) →
      ∀ s, queryAsArray r args1 ≠ Except.ok (Except.error (GoError.remote s))) := by
  constructor
  · intro s hs
    unfold queryAsArray queryAsJSON
    rw [hs]
    rfl
  · intro hno s heq
    exact hno s (remote_out_means_errmsg r args1 s heq)

/-- Witness for the amended C2: a reply carrying `errmsg = "boom"` is
rejected with exactly that message. -/
theorem spec_c2_amended_witness :
    queryAsArray (⟨some (JVal.jstr ['b','o','o','m']), none, none⟩ : Reply) none =
      Except.ok (Except.error (GoError.remote ['b','o','o','m'])) :=
  (spec_c2_amended ⟨some (JVal.jstr ['b','o','o','m']), none, none⟩ none).1 _ rfl

/-- Counterexample to C4 as stated: a reply whose `size` is 0 but whose
`results` field holds a non-array value does not yield the no-data
error — the results-type switch runs first and panics on the nil
error. -/
theorem spec_c4_counterexample :
    queryAsArray (⟨none, some (JVal.jstr ['x']), some (JVal.jnum 0)⟩ : Reply) none =
      Except.error GoPanic.nilDeref ∧
    (Except.error GoPanic.nilDeref : Except GoPanic (Except GoError (List result))) ≠
      Except.ok (Except.error GoError.noData) := by
  exact ⟨by decide, by decide⟩

/-- Claim C4 (amended): for every reply with no string `errmsg`, a
`results` field of array type, and a numeric `size` less than 1,
`QueryAsArray` returns the no-data error and no records, regardless of
the raw content of the results array and of the requested fields. -/
theorem spec_c4_amended (raw : List Char) (n : Int) (args1 : Option (List Char))
    (hn : n < 1) :
    queryAsArray ⟨none, some (JVal.jarr raw), some (JVal.jnum n)⟩ args1 =
      Except.ok (Except.error GoError.noData) := by
  simp only [queryAsArray, queryAsJSON, getStringF, isArr, getIntF,
    if_pos hn, if_true]

/-- Witness for the amended C4: `size = 0` with an arbitrary non-empty
array body yields the no-data error. -/
theorem spec_c4_amended_witness :
    queryAsArray (⟨none, some (JVal.jarr ['[', ']']), some (JVal.jnum 0)⟩ : Reply) none =
      Except.ok (Except.error GoError.noData) :=
  spec_c4_amended ['[', ']'] 0 none (by decide)

/-- Claim C5, behaviour at the failing input: with `results` present
but not of array type the reply is *not* rejected with a format error —
the nil `jsonparser` error is dereferenced and the call panics (first
conjunct); only a *missing* `results` field returns a non-nil error as
the claim describes (second conjunct). -/
theorem spec_c5_bug :
    queryAsArray (⟨none, some (JVal.jstr ['o','o','p','s']), some (JVal.jnum 1)⟩ : Reply) none =
      Except.error GoPanic.nilDeref ∧
    queryAsArray (⟨none, none, some (JVal.jnum 1)⟩ : Reply) none =
      Except.ok (Except.error GoError.keyPathNotFound) := by
  exact ⟨by decide, by decide⟩

/-- Claim C9: parsing is not total over replies that reach the
splitting step — three replies that pass the errmsg, results-type and
size checks on which the unguarded slice/index expressions go out of
bounds: a results array shorter than four bytes
(`results[2:len(results)-2]`), a row with fewer comma-separated
columns than the mapped host index (`tmp[a]`), and a column shorter
than two bytes (`tmp[a][1:len(tmp[a])-1]`). -/
theorem spec_c9 :
    queryAsArray (⟨none, some (JVal.jarr ['[', ']']), some (JVal.jnum 1)⟩ : Reply) none =
      Except.error GoPanic.sliceOOB ∧
    queryAsArray (⟨none, some (JVal.jarr "[[\"x\"]]".data), some (JVal.jnum 1)⟩ : Reply) none =
      Except.error GoPanic.indexOOB ∧
    queryAsArray (⟨none, some (JVal.jarr "[[a]]".data), some (JVal.jnum 1)⟩ : Reply) none =
      Except.error GoPanic.sliceOOB := by
  exact ⟨by decide, by decide, by decide⟩

/-- Claim C7: the value assigned for a column is the cell's raw text
with exactly its first and last character removed, for arbitrary cell
content — no check that those characters are quote characters (the
equation holds whatever they are) and no check that the cell has at
least two characters (shorter cells hit the slice-bounds panic
instead of producing a value). -/
theorem spec_c7 (cell : List Char) :
    (2 ≤ cell.length →
      cellValue cell = Except.ok ((cell.take (cell.length - 1)).drop 1)) ∧
    (cell.length < 2 → cellValue cell = Except.error GoPanic.sliceOOB) := by
  constructor
  · intro h
    unfold cellValue
    rw [goSlice_toNat cell 1 _ 1 (cell.length - 1) rfl (by omega)
      (by omega) (by omega)]
  · intro h
    unfold cellValue goSlice
    have hcond : ¬((0:Int) ≤ 1 ∧ (1:Int) ≤ (cell.length : Int) - 1 ∧
        (cell.length : Int) - 1 ≤ (cell.length : Int)) := by
      omega
    rw [if_neg hcond]

/-- Witness for C7 on a cell whose outer characters are not quotes:
they are still stripped. -/
theorem spec_c7_witness :
    2 ≤ (['(', 'a', ')'] : List Char).length ∧
    cellValue ['(', 'a', ')'] = Except.ok ['a'] :=
  ⟨by decide, (spec_c7 ['(', 'a', ')']).1 (by decide)⟩

/-! ## Inversion lemmas for the row loop -/

theorem colValue_ok_bound {tmp : List (List Char)} {a : Nat} {s : List Char}
    (h : colValue tmp a = Except.ok s) : a < tmp.length := by
  unfold colValue at h
  cases hq : tmp.get? a with
  | none => rw [hq] at h; exact absurd h (by simp)
  | some cell => exact (List.get?_eq_some.mp hq).1

theorem assignField_ok_bound {mf : List Char → Option Nat} {tmp : List (List Char)}
    {name : List Char} {set : result → List Char → result} {r r' : result} {a : Nat}
    (h : assignField mf tmp name set r = Except.ok r') (ha : mf name = some a) :
    a < tmp.length := by
  unfold assignField at h
  rw [ha] at h
  simp only [] at h
  cases hc : colValue tmp a with
  | error p => rw [hc] at h; exact absurd h (by simp)
  | ok s => exact colValue_ok_bound hc

theorem assignField_ok_cases {mf : List Char → Option Nat} {tmp : List (List Char)}
    {name : List Char} {set : result → List Char → result} {r r' : result}
    (h : assignField mf tmp name set r = Except.ok r') :
    r' = r ∨ ∃ s, r' = set r s := by
  unfold assignField at h
  cases hm : mf name with
  | none =>
    rw [hm] at h
    simp only [] at h
    exact Or.inl (by injection h with e; exact e.symm)
  | some a =>
    rw [hm] at h
    simp only [] at h
    cases hc : colValue tmp a with
    | error p => rw [hc] at h; exact absurd h (by simp)
    | ok s =>
      rw [hc] at h
      simp only [] at h
      exact Or.inr ⟨s, by injection h with e; exact e.symm⟩

theorem assignField_pres {mf : List Char → Option Nat} {tmp : List (List Char)}
    {name : List Char} {set : result → List Char → result} {r r' : result}
    (proj : result → List Char) (h : assignField mf tmp name set r = Except.ok r')
    (hproj : ∀ q s, proj (set q s) = proj q) : proj r' = proj r := by
  rcases assignField_ok_cases h with rfl | ⟨s, rfl⟩
  · rfl
  · exact hproj r s

theorem assignField_none (mf : List Char → Option Nat) (tmp : List (List Char))
    (name : List Char) (set : result → List Char → result) (r : result)
    (hm : mf name = none) : assignField mf tmp name set r = Except.ok r := by
  unfold assignField
  rw [hm]

/-- Counterexample to C6 as stated: with caller fields `domain,host`
(mapping host to column 1), a reply whose single row holds only one
column does not return a record with `Host` left empty — the row loop
indexes `tmp[1]` out of range and the call panics, producing no
records at all. -/
theorem spec_c6_counterexample :
    queryAsArray (⟨none, some (JVal.jarr "[[\"a\"]]".data), some (JVal.jnum 1)⟩ : Reply)
      (some "domain,host".data) = Except.error GoPanic.indexOOB := by
  decide

/-- Claim C6 (amended): whenever the row loop returns a record, every
field name absent from the mapping leaves its attribute as the empty
string; but a mapped field whose column index is not present in the
row does not leave the attribute unset — no record is produced, the
column access is out of bounds (`tmp[a]` panics). -/
theorem spec_c6_amended (mf : List Char → Option Nat) (v : List Char) (r : result)
    (hok : parseRow mf v = Except.ok r) :
    ((mf domainKey = none → r.Domain = []) ∧
     (mf hostKey = none → r.Host = []) ∧
     (mf ipKey = none → r.IP = []) ∧
     (mf portKey = none → r.Port = []) ∧
     (mf titleKey = none → r.Title = []) ∧
     (mf countryKey = none → r.Country = []) ∧
     (mf cityKey = none → r.City = [])) ∧
    (∀ name a, mf name = some a →
      name = domainKey ∨ name = hostKey ∨ name = ipKey ∨ name = portKey ∨
        name = titleKey ∨ name = countryKey ∨ name = cityKey →
      a < (splitSub [','] v).length) := by
  simp only [parseRow] at hok
  cases h1 : assignField mf (splitSub [','] v) domainKey
      (fun r s => { r with Domain := s }) emptyResult with
  | error p => rw [h1] at hok; exact absurd hok (by simp)
  | ok r1 =>
  rw [h1] at hok
  simp only [] at hok
  cases h2 : assignField mf (splitSub [','] v) hostKey
      (fun r s => { r with Host := s }) r1 with
  | error p => rw [h2] at hok; exact absurd hok (by simp)
  | ok r2 =>
  rw [h2] at hok
  simp only [] at hok
  cases h3 : assignField mf (splitSub [','] v) ipKey
      (fun r s => { r with IP := s }) r2 with
  | error p => rw [h3] at hok; exact absurd hok (by simp)
  | ok r3 =>
  rw [h3] at hok
  simp only [] at hok
  cases h4 : assignField mf (splitSub [','] v) portKey
      (fun r s => { r with Port := s }) r3 with
  | error p => rw [h4] at hok; exact absurd hok (by simp)
  | ok r4 =>
  rw [h4] at hok
  simp only [] at hok
  cases h5 : assignField mf (splitSub [','] v) titleKey
      (fun r s => { r with Title := s }) r4 with
  | error p => rw [h5] at hok; exact absurd hok (by simp)
  | ok r5 =>
  rw [h5] at hok
  simp only [] at hok
  cases h6 : assignField mf (splitSub [','] v) countryKey
      (fun r s => { r with Country := s }) r5 with
  | error p => rw [h6] at hok; exact absurd hok (by simp)
  | ok r6 =>
  rw [h6] at hok
  simp only [] at hok
  cases h7 : assignField mf (splitSub [','] v) cityKey
      (fun r s => { r with City := s }) r6 with
  | error p => rw [h7] at hok; exact absurd hok (by simp)
  | ok r7 =>
  rw [h7] at hok
  simp only [] at hok
  have hr : r = r7 := by injection hok with e; exact e.symm
  subst hr
  constructor
  · refine ⟨?_, ?_, ?_, ?_, ?_, ?_, ?_⟩
    · intro hd
      have e1 : r1 = emptyResult := by
        have := (assignField_none mf (splitSub [','] v) domainKey
          (fun r s => { r with Domain := s }) emptyResult hd).symm.trans h1
        injection this with e
        exact e.symm
      rw [assignField_pres (fun q => q.Domain) h7 (fun _ _ => rfl),
        assignField_pres (fun q => q.Domain) h6 (fun _ _ => rfl),
        assignField_pres (fun q => q.Domain) h5 (fun _ _ => rfl),
        assignField_pres (fun q => q.Domain) h4 (fun _ _ => rfl),
        assignField_pres (fun q => q.Domain) h3 (fun _ _ => rfl),
        assignField_pres (fun q => q.Domain) h2 (fun _ _ => rfl), e1]
      rfl
    · intro hd
      have e2 : r2 = r1 := by
        have := (assignField_none mf (splitSub [','] v) hostKey
          (fun r s => { r with Host := s }) r1 hd).symm.trans h2
        injection this with e
        exact e.symm
      rw [assignField_pres (fun q => q.Host) h7 (fun _ _ => rfl),
        assignField_pres (fun q => q.Host) h6 (fun _ _ => rfl),
        assignField_pres (fun q => q.Host) h5 (fun _ _ => rfl),
        assignField_pres (fun q => q.Host) h4 (fun _ _ => rfl),
        assignField_pres (fun q => q.Host) h3 (fun _ _ => rfl), e2,
        assignField_pres (fun q => q.Host) h1 (fun _ _ => rfl)]
      rfl
    · intro hd
      have e3 : r3 = r2 := by
        have := (assignField_none mf (splitSub [','] v) ipKey
          (fun r s => { r with IP := s }) r2 hd).symm.trans h3
        injection this with e
        exact e.symm
      rw [assignField_pres (fun q => q.IP) h7 (fun _ _ => rfl),
        assignField_pres (fun q => q.IP) h6 (fun _ _ => rfl),
        assignField_pres (fun q => q.IP) h5 (fun _ _ => rfl),
        assignField_pres (fun q => q.IP) h4 (fun _ _ => rfl), e3,
        assignField_pres (fun q => q.IP) h2 (fun _ _ => rfl),
        assignField_pres (fun q => q.IP) h1 (fun _ _ => rfl)]
      rfl
    · intro hd
      have e4 : r4 = r3 := by
        have := (assignField_none mf (splitSub [','] v) portKey
          (fun r s => { r with Port := s }) r3 hd).symm.trans h4
        injection this with e
        exact e.symm
      rw [assignField_pres (fun q => q.Port) h7 (fun _ _ => rfl),
        assignField_pres (fun q => q.Port) h6 (fun _ _ => rfl),
        assignField_pres (fun q => q.Port) h5 (fun _ _ => rfl), e4,
        assignField_pres (fun q => q.Port) h3 (fun _ _ => rfl),
        assignField_pres (fun q => q.Port) h2 (fun _ _ => rfl),
        assignField_pres (fun q => q.Port) h1 (fun _ _ => rfl)]
      rfl
    · intro hd
      have e5 : r5 = r4 := by
        have := (assignField_none mf (splitSub [','] v) titleKey
          (fun r s => { r with Title := s }) r4 hd).symm.trans h5
        injection this with e
        exact e.symm
      rw [assignField_pres (fun q => q.Title) h7 (fun _ _ => rfl),
        assignField_pres (fun q => q.Title) h6 (fun _ _ => rfl), e5,
        assignField_pres (fun q => q.Title) h4 (fun _ _ => rfl),
        assignField_pres (fun q => q.Title) h3 (fun _ _ => rfl),
        assignField_pres (fun q => q.Title) h2 (fun _ _ => rfl),
        assignField_pres (fun q => q.Title) h1 (fun _ _ => rfl)]
      rfl
    · intro hd
      have e6 : r6 = r5 := by
        have := (assignField_none mf (splitSub [','] v) countryKey
          (fun r s => { r with Country := s }) r5 hd).symm.trans h6
        injection this with e
        exact e.symm
      rw [assignField_pres (fun q => q.Country) h7 (fun _ _ => rfl), e6,
        assignField_pres (fun q => q.Country) h5 (fun _ _ => rfl),
        assignField_pres (fun q => q.Country) h4 (fun _ _ => rfl),
        assignField_pres (fun q => q.Country) h3 (fun _ _ => rfl),
        assignField_pres (fun q => q.Country) h2 (fun _ _ => rfl),
        assignField_pres (fun q => q.Country) h1 (fun _ _ => rfl)]
      rfl
    · intro hd
      have e7 : r = r6 := by
        have := (assignField_none mf (splitSub [','] v) cityKey
          (fun r s => { r with City := s }) r6 hd).symm.trans h7
        injection this with e
        exact e.symm
      rw [e7,
        assignField_pres (fun q => q.City) h6 (fun _ _ => rfl),
        assignField_pres (fun q => q.City) h5 (fun _ _ => rfl),
        assignField_pres (fun q => q.City) h4 (fun _ _ => rfl),
        assignField_pres (fun q => q.City) h3 (fun _ _ => rfl),
        assignField_pres (fun q => q.City) h2 (fun _ _ => rfl),
        assignField_pres (fun q => q.City) h1 (fun _ _ => rfl)]
      rfl
  · rintro name a ha (rfl | rfl | rfl | rfl | rfl | rfl | rfl)
    · exact assignField_ok_bound h1 ha
    · exact assignField_ok_bound h2 ha
    · exact assignField_ok_bound h3 ha
    · exact assignField_ok_bound h4 ha
    · exact assignField_ok_bound h5 ha
    · exact assignField_ok_bound h6 ha
    · exact assignField_ok_bound h7 ha

/-- Witness for the amended C6: with fields `domain` only, parsing a
one-column row returns the record, and the unmapped `host` attribute
is the empty string. -/
theorem spec_c6_amended_witness :
    parseRow (mapFieldsOf (some "domain".data)) "\"a\"".data =
      Except.ok ⟨['a'], [], [], [], [], [], []⟩ ∧
    mapFieldsOf (some "domain".data) hostKey = none ∧
    (⟨['a'], [], [], [], [], [], []⟩ : result).Host = [] :=
  ⟨by decide, by decide,
   (spec_c6_amended (mapFieldsOf (some "domain".data)) "\"a\"".data
     ⟨['a'], [], [], [], [], [], []⟩ (by decide)).1.2.1 (by decide)⟩

/-! ## The two split paths compared (C3) -/

theorem listColValues_map {α : Type} (a : Nat) (g : α → List Char) (f : α → List Char)
    (l : List α) (h : ∀ x ∈ l, colValue (splitSub [','] (f x)) a = Except.ok (g x)) :
    listColValues a (l.map f) = Except.ok (l.map g) := by
  induction l with
  | nil => simp [listColValues]
  | cons x rest ih =>
    have hx := h x (by simp)
    have hrest := ih (fun y hy => h y (List.mem_cons_of_mem x hy))
    simp only [List.map_cons, listColValues, hx, hrest]

theorem splitSub_comma_body (row : List (List Char)) (hne : row ≠ [])
    (hg : ∀ c ∈ row, goodCell c) :
    splitSub [','] (encodeRowBody row) = row.map quoteCell := by
  unfold encodeRowBody
  exact splitSub_joinSep [] (row.map quoteCell) (by simpa using hne)
    (fun p hp => by
      rcases List.mem_map.mp hp with ⟨c, hc, rfl⟩
      exact notin_quoteCell (by decide) (hg c hc).1)

theorem splitResults_encode (m : Nat) (hm : 1 < m) (rows : List (List (List Char)))
    (hne : rows ≠ []) (hg : ∀ row ∈ rows, ∀ c ∈ row, goodCell c) :
    splitResults m (encodeResults rows) = Except.ok (rows.map encodeRowBody) := by
  have hrows : splitSub rowSep (joinSep rowSep (rows.map encodeRowBody)) =
      rows.map encodeRowBody := by
    have hr : rowSep = ']' :: [',', '['] := rfl
    rw [hr]
    exact splitSub_joinSep [',', '['] _ (by simpa using hne)
      (fun p hp => by
        rcases List.mem_map.mp hp with ⟨row, hrow, rfl⟩
        exact rbracket_notin_body (hg row hrow))
  rw [encodeResults_eq rows hne, splitResults_multi m hm, hrows]

theorem getD_mem {l : List (List Char)} {j : Nat} (h : j < l.length) :
    l.getD j [] ∈ l := by
  rw [List.getD_eq_getElem?_getD, List.getElem?_eq_getElem h]
  simp only [Option.getD_some]
  exact List.getElem_mem h

/-- Claim C3: on identical underlying data — rows of delimiter-free
cells, with the single-field reply carrying the chosen column as a
flat array — the single-field split path (strip one outer byte, split
rows on commas) produces for each row the same stripped value that the
multi-field path (strip two outer bytes, split rows on `],[`) produces
for that field's column. -/
theorem spec_c3 (rows : List (List (List Char))) (j : Nat) (m : Nat)
    (hm : 1 < m) (hne : rows ≠ []) (hj : ∀ row ∈ rows, j < row.length)
    (hg : ∀ row ∈ rows, ∀ c ∈ row, goodCell c) :
    pathValues 1 0 (encodeFlat (rows.map (fun row => row.getD j []))) =
      Except.ok (rows.map (fun row => row.getD j [])) ∧
    pathValues m j (encodeResults rows) =
      Except.ok (rows.map (fun row => row.getD j [])) := by
  have hcells : ∀ row ∈ rows, goodCell (row.getD j []) := fun row hrow =>
    hg row hrow _ (getD_mem (hj row hrow))
  constructor
  · have hflat : splitResults 1 (encodeFlat (rows.map (fun row => row.getD j []))) =
        Except.ok ((rows.map (fun row => row.getD j [])).map quoteCell) := by
      unfold encodeFlat
      rw [List.cons_append, splitResults_single 1 (by omega)]
      congr 1
      refine splitSub_joinSep [] _ (by simpa using hne) ?_
      intro p hp
      rcases List.mem_map.mp hp with ⟨c, hc, rfl⟩
      rcases List.mem_map.mp hc with ⟨row, hrow, rfl⟩
      exact notin_quoteCell (by decide) (hcells row hrow).1
    unfold pathValues
    rw [hflat, List.map_map]
    apply listColValues_map
    intro row hrow
    have h1 : splitSub [','] (quoteCell (row.getD j [])) = [quoteCell (row.getD j [])] :=
      splitSub_notin [] _ (notin_quoteCell (by decide) (hcells row hrow).1)
    simp only [Function.comp_apply, h1, colValue, List.get?, cellValue_quote]
  · unfold pathValues
    rw [splitResults_encode m hm rows hne hg]
    apply listColValues_map
    intro row hrow
    have hrne : row ≠ [] := by
      have := hj row hrow
      exact List.length_pos.mp (by omega)
    rw [splitSub_comma_body row hrne (hg row hrow),
      colValue_map_quote row j (hj row hrow)]

/-- Witness for C3: one two-column row; the flat single-field reply for
column 1 and the bracketed two-column reply agree on the value. -/
theorem spec_c3_witness :
    pathValues 1 0 (encodeFlat [['e','x']]) = Except.ok [['e','x']] ∧
    pathValues 7 1 (encodeResults [[['1','.','2'],['e','x']]]) = Except.ok [['e','x']] :=
  spec_c3 [[['1','.','2'],['e','x']]] 1 7 (by decide) (by decide) (by decide) (by decide)

/-! ## The field-to-index mapping (C8) -/

theorem buildMap_notmem (fields : List (List Char)) :
    ∀ (i : Nat) (m : List Char → Option Nat) (name : List Char),
      (∀ f ∈ fields, trimSpaces f ≠ name) → buildMap i fields m name = m name := by
  induction fields with
  | nil => intro i m name _; rfl
  | cons f rest ih =>
    intro i m name hno
    simp only [buildMap]
    rw [ih (i + 1) _ name (fun x hx => hno x (List.mem_cons_of_mem f hx))]
    unfold insertMap
    rw [if_neg (fun he => hno f (List.mem_cons_self f rest) he.symm)]

theorem buildMap_get (fields : List (List Char)) :
    ∀ (i0 : Nat) (m : List Char → Option Nat) (j : Nat) (hj : j < fields.length),
      (∀ nm ∈ fields, trimSpaces nm = nm) → fields.Nodup →
      buildMap i0 fields m (fields.get ⟨j, hj⟩) = some (i0 + j) := by
  induction fields with
  | nil => intro i0 m j hj _ _; exact absurd hj (by simp)
  | cons f rest ih =>
    intro i0 m j hj htrim hnodup
    cases j with
    | zero =>
      simp only [List.get, buildMap]
      rw [buildMap_notmem rest (i0 + 1) _ f ?_]
      · unfold insertMap
        rw [if_pos (htrim f (List.mem_cons_self f rest)).symm]
        simp
      · intro x hx heq
        have hxx : x = f := by
          rw [← htrim x (List.mem_cons_of_mem f hx)]
          exact heq
        exact (List.nodup_cons.mp hnodup).1 (hxx ▸ hx)
    | succ k =>
      simp only [List.get, buildMap]
      have hk : k < rest.length := by
        simp only [List.length_cons] at hj
        omega
      have harith : i0 + 1 + k = i0 + (k + 1) := by omega
      rw [ih (i0 + 1) _ k hk
        (fun nm hnm => htrim nm (List.mem_cons_of_mem f hnm))
        (List.nodup_cons.mp hnodup).2, harith]

/-- Claim C8: with a caller-supplied field list (of distinct,
space-trimmed, comma-free names), each field name's position in the
list is its column index in the mapping; with no field list, the
mapping is the fixed order domain=0, host=1, ip=2, port=3, title=4,
country=5, city=6; and for the custom order `ip,domain` the parsed
values land in the matching record attributes regardless of the column
order in the row. -/
theorem spec_c8 :
    (∀ (names : List (List Char)) (j : Nat) (hj : j < names.length),
      (∀ nm ∈ names, trimSpaces nm = nm) → names.Nodup →
      (∀ nm ∈ names, ',' ∉ nm) → names ≠ [] →
      mapFieldsOf (some (joinSep [','] names)) (names.get ⟨j, hj⟩) = some j) ∧
    (mapFieldsOf none domainKey = some 0 ∧ mapFieldsOf none hostKey = some 1 ∧
     mapFieldsOf none ipKey = some 2 ∧ mapFieldsOf none portKey = some 3 ∧
     mapFieldsOf none titleKey = some 4 ∧ mapFieldsOf none countryKey = some 5 ∧
     mapFieldsOf none cityKey = some 6) ∧
    queryAsArray
      ⟨none, some (JVal.jarr (encodeResults [[['1','.','2'],['e','x']]])),
       some (JVal.jnum 1)⟩ (some "ip,domain".data) =
      Except.ok (Except.ok [⟨['e','x'], [], ['1','.','2'], [], [], [], []⟩]) := by
  refine ⟨?_, ⟨by decide, by decide, by decide, by decide, by decide, by decide, by decide⟩,
    by decide⟩
  intro names j hj htrim hnodup hcomma hne
  simp only [mapFieldsOf]
  rw [splitSub_joinSep [] names hne hcomma]
  unfold mapFieldsCustom
  have := buildMap_get names 0 (fun _ => none) j hj htrim hnodup
  simpa using this

/-- Witness for C8: for the custom list `ip, domain`, `ip` maps to
column 0 and `domain` to column 1. -/
theorem spec_c8_witness :
    mapFieldsOf (some (joinSep [','] ["ip".data, "domain".data])) "ip".data = some 0 ∧
    mapFieldsOf (some (joinSep [','] ["ip".data, "domain".data])) "domain".data = some 1 :=
  ⟨spec_c8.1 ["ip".data, "domain".data] 0 (by decide) (by decide) (by decide)
     (by decide) (by decide),
   spec_c8.1 ["ip".data, "domain".data] 1 (by decide) (by decide) (by decide)
     (by decide) (by decide)⟩

end Fofa
